import Mathlib

/-!
Verification of the IFC extraction-and-normalization engine
(`src/backend/parse_ifc.py`) against its natural-language specification.

The Python module is shallowly embedded below:

* Python values appearing in property/quantity sets become the inductive
  types `RawValue` (before `safe_value`) and `PValue` (after `safe_value`);
  Python floats are modelled by `ℚ` (no claim under scrutiny depends on
  binary floating-point artefacts).
* Python dicts that the code only ever iterates in insertion order become
  association lists (`List (String × _)`).
* Python exceptions raised by the external model library become `Option`:
  `none` at a call site models "this access raised".
* The mutable accumulator variables `volume`, `area`, ..., `concrete_class`
  of `extract_element_data` become the record `ScanState`, threaded through
  a fold over the entries in the exact iteration order of the source
  (property sets before quantity sets, set-insertion order, then key order).
-/

namespace ParseIfc

/-- Raw value attached to a property or quantity entry, as handed to
`safe_value` by the external model library.  `entity s` models an
IfcOpenShell entity reference whose Python `str()` rendering is `s`. -/
inductive RawValue where
  | null : RawValue
  | int : Int → RawValue
  | float : ℚ → RawValue
  | bool : Bool → RawValue
  | str : String → RawValue
  | entity : String → RawValue
deriving DecidableEq

/-- The Python value stored in the cleaned property/quantity mappings after
`safe_value`: entity references have been rendered to strings, so only
`None`, numbers, booleans and strings remain. -/
inductive PValue where
  | null : PValue
  | int : Int → PValue
  | float : ℚ → PValue
  | bool : Bool → PValue
  | str : String → PValue
deriving DecidableEq

/-- Embedding of `safe_value` (`parse_ifc.py`, lines 75-87): `None`,
numbers, booleans and strings pass through unchanged; an entity reference
(or any other object) is rendered with `str(val)`. -/
def safe_value : RawValue → PValue
  | RawValue.null => PValue.null
  | RawValue.int n => PValue.int n
  | RawValue.float q => PValue.float q
  | RawValue.bool b => PValue.bool b
  | RawValue.str s => PValue.str s
  | RawValue.entity s => PValue.str s

/-- Embedding of `float(v) if isinstance(v, (int, float)) else None`
(line 144).  Python's `bool` is a subclass of `int`, so `isinstance(True,
(int, float))` holds and `float(True) = 1.0`, `float(False) = 0.0`.
Strings and `None` give `None`. -/
def as_float : PValue → Option ℚ
  | PValue.int n => some (n : ℚ)
  | PValue.float q => some q
  | PValue.bool b => some (if b then 1 else 0)
  | PValue.str _ => Option.none
  | PValue.null => Option.none

/-- Whether `isinstance(v, str)` holds for a stored value. -/
def isStr : PValue → Bool
  | PValue.str _ => true
  | _ => false

/-- The string payload of a stored value (meaningful only when `isStr`). -/
def strVal : PValue → String
  | PValue.str s => s
  | _ => ""

/-- Embedding of `normalize_key` (lines 65-67):
`name.lower().replace(" ", "").replace("_", "").replace("-", "")`.
`Char.toLower` matches Python `str.lower` on the basic latin range used by
the key sets. -/
def keepChar (c : Char) : Bool := !(c == ' ' || c == '_' || c == '-')

def normalize_key (nameStr : String) : String :=
  String.mk ((nameStr.data.map Char.toLower).filter keepChar)

/-- Embedding of `match_keys` (lines 70-72): some key of the key set is a
substring (Python `in`) of the normalized name.  Key sets are Python `set`s
whose iteration order is irrelevant to `any`, so they are embedded as
lists in source order. -/
def match_keys (nameStr : String) (keySet : List String) : Bool :=
  keySet.any fun k => decide (k.data <:+: (normalize_key nameStr).data)

def VOLUME_KEYS : List String := ["netvolume", "grossvolume", "volume"]
def AREA_KEYS : List String :=
  ["netarea", "grossarea", "netsidearea", "grosssidearea", "area",
   "crosssectionarea", "outersurfacearea", "totalsurfacearea", "netsurfacearea"]
def HEIGHT_KEYS : List String := ["height", "overallheight", "nominalheight"]
def LENGTH_KEYS : List String := ["length", "overalllength", "nominallength", "span"]
def WIDTH_KEYS : List String := ["width", "overallwidth", "nominalwidth"]
def PERIMETER_KEYS : List String := ["perimeter", "grossperimeter", "netperimeter"]
def WEIGHT_KEYS : List String := ["weight", "grossweight", "netweight"]
def CONCRETE_KEYS : List String :=
  ["concretestrength", "concreteclass", "concretegrade",
   "classofconcrete", "strengthclass"]

/-- The seven numeric semantic categories, in the fixed precedence order of
the `if`/`elif` chain at lines 149-162. -/
inductive Cat where
  | volume | area | height | length | width | perimeter | weight
deriving DecidableEq

/-- The chain order: volume, area, height, length, width, perimeter, weight. -/
def catList : List Cat :=
  [Cat.volume, Cat.area, Cat.height, Cat.length, Cat.width, Cat.perimeter, Cat.weight]

def catKeys : Cat → List String
  | Cat.volume => VOLUME_KEYS
  | Cat.area => AREA_KEYS
  | Cat.height => HEIGHT_KEYS
  | Cat.length => LENGTH_KEYS
  | Cat.width => WIDTH_KEYS
  | Cat.perimeter => PERIMETER_KEYS
  | Cat.weight => WEIGHT_KEYS

/-- The mutable locals of `extract_element_data` lines 128-135: the seven
numeric accumulators plus `concrete_class`. -/
structure ScanState where
  volume : ℚ
  area : ℚ
  height : ℚ
  length : ℚ
  width : ℚ
  perimeter : ℚ
  weight : ℚ
  concrete_class : String
deriving DecidableEq

def initState : ScanState :=
  { volume := 0, area := 0, height := 0, length := 0, width := 0,
    perimeter := 0, weight := 0, concrete_class := "" }

def catField (st : ScanState) : Cat → ℚ
  | Cat.volume => st.volume
  | Cat.area => st.area
  | Cat.height => st.height
  | Cat.length => st.length
  | Cat.width => st.width
  | Cat.perimeter => st.perimeter
  | Cat.weight => st.weight

def setCat (st : ScanState) (f : ℚ) : Cat → ScanState
  | Cat.volume => { st with volume := f }
  | Cat.area => { st with area := f }
  | Cat.height => { st with height := f }
  | Cat.length => { st with length := f }
  | Cat.width => { st with width := f }
  | Cat.perimeter => { st with perimeter := f }
  | Cat.weight => { st with weight := f }

/-- The `if not volume and match_keys(...): volume = fv / elif ...` chain of
lines 149-162, written as a walk down `catList`: the first category in
chain order that is still unclaimed (field falsy, i.e. `= 0`) and whose key
set matches the name claims the value; at most one branch fires. -/
def claimChainAux (st : ScanState) (k : String) (f : ℚ) : List Cat → ScanState
  | [] => st
  | c :: cs =>
    if catField st c = 0 ∧ match_keys k (catKeys c) = true then setCat st f c
    else claimChainAux st k f cs

def claimChain (st : ScanState) (k : String) (f : ℚ) : ScanState :=
  claimChainAux st k f catList

/-- One iteration of the entry loop, lines 139-165: skip `None` values;
coerce numerics via `as_float`; if positive, run the claim chain; then,
independently, a string value matching `CONCRETE_KEYS` claims
`concrete_class` when it is still falsy (empty). -/
def scanStep (st : ScanState) (kv : String × PValue) : ScanState :=
  if kv.2 = PValue.null then st
  else
    let st1 :=
      match as_float kv.2 with
      | some fv => if 0 < fv then claimChain st kv.1 fv else st
      | Option.none => st
    if st1.concrete_class = "" ∧ isStr kv.2 = true ∧
        match_keys kv.1 CONCRETE_KEYS = true then
      { st1 with concrete_class := strVal kv.2 }
    else st1

/-- A cleaned property-set or quantity-set mapping: set name, then the
entries of the set in key order. -/
abbrev PSets : Type := List (String × List (String × PValue))

/-- The exact entry iteration order of `for source in [psets, qsets]: for
pset_name, props in source.items(): for k, v in props.items()`
(lines 137-139). -/
def allEntries (psets qsets : PSets) : List (String × PValue) :=
  ((psets ++ qsets).map Prod.snd).flatten

/-- The loop of lines 137-165: fold `scanStep` over all entries in
iteration order, starting from all-unclaimed accumulators. -/
def scanEntries (l : List (String × PValue)) : ScanState :=
  l.foldl scanStep initState

def extractFields (psets qsets : PSets) : ScanState :=
  scanEntries (allEntries psets qsets)

/-- Python `str(v)` of a stored value, used in the `f"{k}={v}"` search-text
segments.  Numeric rendering is a fixed executable stand-in for Python's
decimal formatting; no claim depends on the exact digits. -/
def valueStr : PValue → String
  | PValue.null => "None"
  | PValue.bool true => "True"
  | PValue.bool false => "False"
  | PValue.int n => toString n
  | PValue.float q => toString q
  | PValue.str s => s

/-- Round `n / d` (with `d > 0`) to the nearest integer, half to even —
the tie-breaking of Python's builtin `round`.  `f = ⌊n/d⌋` via floor
division; the fractional part `(n - f·d)/d` is compared against `1/2` by
cross-multiplication. -/
def roundHalfEvenFrac (n d : Int) : Int :=
  let f := n.fdiv d
  let r2 := 2 * (n - f * d)
  if r2 < d then f
  else if d < r2 then f + 1
  else if f % 2 = 0 then f else f + 1

/-- Embedding of `round(x, 6)` (lines 222-228) over `ℚ`:
`round(q·10⁶)/10⁶`. -/
def round6 (q : ℚ) : ℚ :=
  mkRat (roundHalfEvenFrac (q.num * 1000000) (q.den : Int)) 1000000

/-- The cleaning loop of lines 103-109 / 117-123: drop entries keyed
`"id"`, pass every other value through `safe_value`. -/
def cleanProps (props : List (String × RawValue)) : List (String × PValue) :=
  props.filterMap fun kv =>
    if kv.1 = "id" then Option.none else some (kv.1, safe_value kv.2)

/-- Retrieval plus cleaning of one of the two mappings (lines 100-125):
`none` models `get_psets` raising, in which case the `except` leaves the
mapping empty. -/
def cleanSets (raw : Option (List (String × List (String × RawValue)))) : PSets :=
  match raw with
  | Option.none => []
  | some sets => sets.map fun p => (p.1, cleanProps p.2)

/-- The inputs `extract_element_data` reads for one element: its own
attributes, the two retrieved raw mappings (`none` = retrieval raised), and
the already-resolved material and classification lists (their resolution,
lines 167-201, is not under scrutiny by any claim and is taken as input). -/
structure ElementInput where
  express_id : Nat
  global_id : String
  ifc_type : String
  name : String
  description : String
  rawPsets : Option (List (String × List (String × RawValue)))
  rawQsets : Option (List (String × List (String × RawValue)))
  materials : List String
  classifications : List String
deriving DecidableEq

/-- The dict returned by `extract_element_data` (lines 216-236). -/
structure ElementRecord where
  express_id : Nat
  global_id : String
  ifc_type : String
  name : String
  description : String
  volume : ℚ
  area : ℚ
  height : ℚ
  length : ℚ
  width : ℚ
  perimeter : ℚ
  weight : ℚ
  floor_name : String
  materials : List String
  classifications : List String
  concrete_class : String
  property_sets : PSets
  quantity_sets : PSets
  search_text : String
deriving DecidableEq

/-- Embedding of `extract_element_data` (lines 91-236).  The storey map is
a total lookup `Nat → Option String` standing for the Python dict;
`storey_map.get(express_id, "")` becomes `(storeyMap e.express_id).getD ""`.
Search-text truncation `search_text[:10000]` slices by characters, i.e.
takes the first 10000 code points. -/
def extract_element_data (e : ElementInput) (storeyMap : Nat → Option String) :
    ElementRecord :=
  let psets := cleanSets e.rawPsets
  let qsets := cleanSets e.rawQsets
  let fields := extractFields psets qsets
  let floorName := (storeyMap e.express_id).getD ""
  let searchParts :=
    [e.ifc_type, e.name, e.description, floorName, fields.concrete_class]
      ++ e.materials ++ e.classifications
      ++ (psets.map fun p =>
            p.1 :: p.2.map fun kv => kv.1 ++ "=" ++ valueStr kv.2).flatten
  let searchText :=
    String.mk ((" ".intercalate (searchParts.filter fun s => s ≠ "")).data.take 10000)
  { express_id := e.express_id
    global_id := e.global_id
    ifc_type := e.ifc_type
    name := e.name
    description := e.description
    volume := round6 fields.volume
    area := round6 fields.area
    height := round6 fields.height
    length := round6 fields.length
    width := round6 fields.width
    perimeter := round6 fields.perimeter
    weight := round6 fields.weight
    floor_name := floorName
    materials := e.materials.filter fun m => m ≠ ""
    classifications := e.classifications.filter fun c => c ≠ ""
    concrete_class := fields.concrete_class
    property_sets := psets
    quantity_sets := qsets
    search_text := searchText }

/-- Search text as the specification words it (spec §4.7): type tag, name,
description, floor name, concrete-class, every material name, every
classification string, then for every property set its name followed by
`key=value` per entry; empty segments omitted; joined by single spaces;
truncated to at most 10000 characters.  Quantity sets are not an input:
they contribute nothing. -/
def specSearchText (ifcType nm description floorName concreteClass : String)
    (materials classifications : List String) (psets : PSets) : String :=
  let segments :=
    [ifcType, nm, description, floorName, concreteClass]
      ++ materials ++ classifications
      ++ (psets.map fun p =>
            p.1 :: p.2.map fun kv => kv.1 ++ "=" ++ valueStr kv.2).flatten
  String.mk ((" ".intercalate (segments.filter fun s => s ≠ "")).data.take 10000)

/-- The relating spatial structure of a containment relation: its `Name`
and `LongName` attributes, with `""` standing for absent/`None` (all falsy
values behave identically at lines 249). -/
structure SpatialStruct where
  name : String
  long_name : String
deriving DecidableEq

/-- One `IfcRelContainedInSpatialStructure` relation as
`build_storey_map` reads it.  `relating_structure = none` models a falsy
`RelatingStructure` (the `continue` branch); `related_elements = none`
models the external library raising while the relation is processed, which
the single `try` around the whole loop turns into an abort of the
remaining relations. -/
structure ContainRel where
  relating_structure : Option SpatialStruct
  related_elements : Option (List Nat)
deriving DecidableEq

/-- `getattr(structure, "Name", "") or getattr(structure, "LongName", "") or ""`
(line 249). -/
def displayName (s : SpatialStruct) : String :=
  if s.name ≠ "" then s.name else s.long_name

/-- Python dict assignment `storey_map[element.id()] = storey_name` on the
map modelled as a total lookup function. -/
def updMap (m : Nat → Option String) (k : Nat) (v : String) : Nat → Option String :=
  fun x => if x = k then some v else m x

/-- The loop of `build_storey_map` (lines 244-253).  A failing relation
(`related_elements = none`) returns the map accumulated so far: the `try`
wraps the entire `for`, so the remaining relations are never processed. -/
def storeyLoop : List ContainRel → (Nat → Option String) → (Nat → Option String)
  | [], m => m
  | r :: rs, m =>
    match r.relating_structure with
    | Option.none => storeyLoop rs m
    | some s =>
      match r.related_elements with
      | Option.none => m
      | some elems =>
        storeyLoop rs (elems.foldl (fun m' x => updMap m' x (displayName s)) m)

/-- Embedding of `build_storey_map` (lines 241-254). -/
def build_storey_map (rels : List ContainRel) : Nat → Option String :=
  storeyLoop rels fun _ => Option.none

/-- A relation whose processing does not raise: either it is skipped at the
`if not structure: continue` (structure falsy) or its related elements are
retrieved without error. -/
def relOk (r : ContainRel) : Bool :=
  match r.relating_structure, r.related_elements with
  | some _, Option.none => false
  | _, _ => true

def SPATIAL_TYPES : List String :=
  ["IfcProject", "IfcSite", "IfcBuilding", "IfcBuildingStorey", "IfcSpace"]

/-- Parse an unsigned decimal literal (digits, optionally a point and more
digits), as Python `float` accepts for the strings relevant here. -/
def parseUnsigned (cs : List Char) : Option ℚ :=
  let intPart := cs.takeWhile Char.isDigit
  let rest := cs.dropWhile Char.isDigit
  let digitsVal : List Char → ℚ :=
    fun ds => ds.foldl (fun a c => a * 10 + ((c.toNat - 48 : Nat) : ℚ)) 0
  match rest with
  | [] => if intPart.isEmpty then Option.none else some (digitsVal intPart)
  | '.' :: frac =>
    if frac.all Char.isDigit ∧ ¬(intPart.isEmpty ∧ frac.isEmpty) then
      some (digitsVal intPart + digitsVal frac / ((10 : ℚ) ^ frac.length))
    else Option.none
  | _ => Option.none

/-- Executable model of Python `float(s)` on decimal literals with an
optional sign; any other string raises `ValueError`, modelled as `none`. -/
def parseFloat? (s : String) : Option ℚ :=
  match s.data with
  | '+' :: cs => parseUnsigned cs
  | '-' :: cs => (parseUnsigned cs).map Neg.neg
  | cs => parseUnsigned cs

/-- Embedding of `float(elevation)` under `try/except (ValueError,
TypeError)` (lines 274-279): numbers and booleans convert, strings are
parsed (`none` on failure), anything else (`None` there means the
attribute was absent) yields `None`. -/
def pyFloat? : PValue → Option ℚ
  | PValue.null => Option.none
  | PValue.int n => some (n : ℚ)
  | PValue.float q => some q
  | PValue.bool b => some (if b then 1 else 0)
  | PValue.str s => parseFloat? s

/-- One entity as `build_spatial_tree` reads it: type tag, `Name` and
`LongName` attributes (`""` for absent), the raw `Elevation` attribute
(`PValue.null` for absent), the `RelatedElements` lists of its direct
`ContainsElements` relations, and the ids of the objects of its
`IsDecomposedBy` relations in traversal order. -/
structure SpatialEntity where
  ifc_type : String
  name : String
  long_name : String
  elevationAttr : PValue
  containsElements : List (List Nat)
  childIds : List Nat
deriving DecidableEq

/-- The model graph as the traversal consumes it: entity lookup by express
id, plus the entities returned by `model.by_type("IfcProject")`. -/
structure Graph where
  entities : List (Nat × SpatialEntity)
  projects : List Nat
deriving DecidableEq

def lookupEntity (g : Graph) (i : Nat) : Option SpatialEntity :=
  (g.entities.find? fun pe => pe.1 == i).map Prod.snd

/-- One emitted spatial node (lines 289-297). -/
structure SpatialNode where
  express_id : Nat
  ifc_type : String
  name : String
  long_name : String
  parent_express_id : Option Nat
  elevation : Option ℚ
  element_count : Nat
deriving DecidableEq

/-- Elevation attached to a node: parsed from the `Elevation` attribute for
storey-typed entities only, `None` otherwise (lines 272-279). -/
def storeyElevation (e : SpatialEntity) : Option ℚ :=
  if e.ifc_type = "IfcBuildingStorey" then pyFloat? e.elevationAttr else Option.none

/-- The node appended at lines 289-297 for a recognized entity. -/
def mkSpatialNode (eid : Nat) (e : SpatialEntity) (parentId : Option Nat) :
    SpatialNode :=
  { express_id := eid
    ifc_type := e.ifc_type
    name := e.name
    long_name := e.long_name
    parent_express_id := parentId
    elevation := storeyElevation e
    element_count := (e.containsElements.map List.length).sum }

/-- Embedding of the recursive `process_spatial` (lines 263-305) with an
explicit recursion-depth budget `fuel` making the traversal total (the
claims assume the decomposition relations are acyclic, under which any
`fuel` larger than the tree depth reproduces the Python recursion).  An
entity that does not resolve (`if not entity: return`) or whose type tag
is not a recognized spatial-container type contributes nothing and is not
recursed into; otherwise its node is appended and its decomposition
children are visited left to right with the entity's id as parent. -/
def process_spatial (g : Graph) : Nat → Nat → Option Nat → List SpatialNode →
    List SpatialNode
  | 0, _, _, acc => acc
  | Nat.succ fuel, eid, parentId, acc =>
    match lookupEntity g eid with
    | Option.none => acc
    | some e =>
      if e.ifc_type ∈ SPATIAL_TYPES then
        e.childIds.foldl (fun a c => process_spatial g fuel c (some eid) a)
          (acc ++ [mkSpatialNode eid e parentId])
      else acc

/-- Embedding of `build_spatial_tree` (lines 259-311): start the traversal
from every `IfcProject` entity with no parent. -/
def build_spatial_tree (g : Graph) (fuel : Nat) : List SpatialNode :=
  g.projects.foldl (fun acc p => process_spatial g fuel p Option.none acc) []

/-! ## Specification-side definitions

The following definitions transcribe the specification's wording ("the
first entry, scanned in the fixed order, whose ..."); the claim theorems
compare them with the code embedding above. -/

/-- Left-biased choice on options (`a` if present, else `b`). -/
def optOr {α : Type} (a b : Option α) : Option α :=
  match a with
  | some x => some x
  | Option.none => b

/-- The numeric value an entry offers for claiming: present iff the stored
value is numeric (per `as_float`) and strictly positive. -/
def entryNum? (kv : String × PValue) : Option ℚ :=
  match as_float kv.2 with
  | some f => if 0 < f then some f else Option.none
  | Option.none => Option.none

/-- The value an entry offers to category `c`: its positive numeric value,
provided its name matches the category's key set. -/
def entryMatch? (kv : String × PValue) (c : Cat) : Option ℚ :=
  match entryNum? kv with
  | some f => if match_keys kv.1 (catKeys c) = true then some f else Option.none
  | Option.none => Option.none

/-- Specification wording: the value of the first entry in scan order whose
name matches category `c` and whose value is numeric and strictly
positive. -/
def firstCat? : List (String × PValue) → Cat → Option ℚ
  | [], _ => Option.none
  | kv :: rest, c => optOr (entryMatch? kv c) (firstCat? rest c)

/-- The string an entry offers to `concrete_class`: present iff the stored
value is a non-empty string and the name matches `CONCRETE_KEYS`. -/
def concMatch? (kv : String × PValue) : Option String :=
  if isStr kv.2 = true ∧ match_keys kv.1 CONCRETE_KEYS = true ∧ strVal kv.2 ≠ ""
  then some (strVal kv.2) else Option.none

/-- Specification wording: the first entry in scan order whose value is a
non-empty string and whose name matches the concrete-class key set. -/
def firstConc? : List (String × PValue) → Option String
  | [] => Option.none
  | kv :: rest => optOr (concMatch? kv) (firstConc? rest)

/-- A category's accumulator viewed as "claimed value, if claimed":
`none` while the field is still `0` (falsy), `some` of the field once a
positive value has claimed it. -/
def catFieldOpt (st : ScanState) (c : Cat) : Option ℚ :=
  if catField st c = 0 then Option.none else some (catField st c)

/-- `concrete_class` viewed as "claimed value, if claimed". -/
def concOpt (st : ScanState) : Option String :=
  if st.concrete_class = "" then Option.none else some st.concrete_class

/-- An entry name matches at most one of the seven numeric categories
(the key sets are curated to be near-disjoint; this is the hypothesis
under which the claim's per-category first-match reading is exact). -/
abbrev EntryDisj (kv : String × PValue) : Prop :=
  ∀ c ∈ catList, ∀ c' ∈ catList,
    match_keys kv.1 (catKeys c) = true → match_keys kv.1 (catKeys c') = true → c = c'

/-- Remove the string-valued entries of every set (used to state that
string values never influence the seven numeric fields). -/
def dropStrEntries (sets : PSets) : PSets :=
  sets.map fun p => (p.1, p.2.filter fun kv => !isStr kv.2)

/-- The express ids of a node list, in output order. -/
def idsOf (l : List SpatialNode) : List Nat := l.map SpatialNode.express_id

/-- `ParentsSeen seen l`: walking `l` left to right, every node's parent id
(when present) is among `seen` — the ids emitted before it.  With
`seen = []` this is the claim's forest property: each parent id names a
node that appears strictly before its child in output order. -/
def ParentsSeen : List Nat → List SpatialNode → Prop
  | _, [] => True
  | seen, n :: rest =>
    (∀ p, n.parent_express_id = some p → p ∈ seen) ∧
      ParentsSeen (seen ++ [n.express_id]) rest

/-- A decomposition edge of the model graph: entity `p` lists `c` among the
objects of its decomposition relations. -/
def decompEdge (g : Graph) (p c : Nat) : Prop :=
  ∃ e, lookupEntity g p = some e ∧ c ∈ e.childIds

/-- Soundness of one emitted node: it stems from a recognized
spatial-container entity of the graph, carries that entity's type tag and
(storey-only) elevation, and its parent link is a decomposition edge. -/
def NodeOK (g : Graph) (n : SpatialNode) : Prop :=
  ∃ e, lookupEntity g n.express_id = some e ∧ e.ifc_type ∈ SPATIAL_TYPES ∧
    n.ifc_type = e.ifc_type ∧ n.elevation = storeyElevation e ∧
    ∀ p, n.parent_express_id = some p → decompEdge g p n.express_id

/-- The parent/child relation carried by an emitted node list: `p` is a
parent of `c` when some node has express id `c` and parent id `p`. -/
def outEdge (l : List SpatialNode) (p c : Nat) : Prop :=
  ∃ n ∈ l, n.express_id = c ∧ n.parent_express_id = some p

/-! ## Lemmas about `normalize_key` and `match_keys` (claim C8) -/

theorem char_toNat_ofNat {n : Nat} (h : n.isValidChar) :
    (Char.ofNat n).toNat = n := by
  simp only [Char.ofNat, dif_pos h, Char.ofNatAux, Char.toNat]
  rfl

theorem toLower_toLower (c : Char) : c.toLower.toLower = c.toLower := by
  show Char.toLower (Char.toLower c) = Char.toLower c
  unfold Char.toLower
  by_cases h : c.toNat ≥ 65 ∧ c.toNat ≤ 90
  · rw [if_pos h]
    have hv : Nat.isValidChar (c.toNat + 32) := Or.inl (by omega)
    have ht : (Char.ofNat (c.toNat + 32)).toNat = c.toNat + 32 :=
      char_toNat_ofNat hv
    rw [ht, if_neg (by omega)]
  · rw [if_neg h, if_neg h]

theorem normalize_key_idem (s : String) :
    normalize_key (normalize_key s) = normalize_key s := by
  unfold normalize_key
  congr 1
  show ((((s.data.map Char.toLower).filter keepChar).map Char.toLower).filter
    keepChar) = (s.data.map Char.toLower).filter keepChar
  have hfix : ∀ c ∈ (s.data.map Char.toLower).filter keepChar,
      Char.toLower c = c := by
    intro c hc
    have hm : c ∈ s.data.map Char.toLower := List.mem_of_mem_filter hc
    obtain ⟨a, _, rfl⟩ := List.mem_map.mp hm
    exact toLower_toLower a
  rw [List.map_congr_left hfix, List.map_id',
    List.filter_eq_self.mpr fun c hc => List.of_mem_filter hc]

theorem match_keys_iff (nm : String) (ks : List String) :
    match_keys nm ks = true ↔ ∃ k ∈ ks, k.data <:+: (normalize_key nm).data := by
  simp [match_keys, List.any_eq_true]

/-! ## Lemmas about the claim chain and the entry scan (claims C1, C3, C10) -/

theorem mem_catList (c : Cat) : c ∈ catList := by
  cases c <;> simp [catList]

theorem catList_nodup : catList.Nodup := by decide

theorem optOr_assoc {α : Type} (a b c : Option α) :
    optOr (optOr a b) c = optOr a (optOr b c) := by
  cases a <;> rfl

theorem optOr_none_right {α : Type} (a : Option α) : optOr a Option.none = a := by
  cases a <;> rfl

theorem catField_setCat_self (st : ScanState) (f : ℚ) (c : Cat) :
    catField (setCat st f c) c = f := by
  cases c <;> rfl

theorem catField_setCat_ne (st : ScanState) (f : ℚ) {c c' : Cat} (h : c' ≠ c) :
    catField (setCat st f c) c' = catField st c' := by
  cases c <;> cases c' <;> first | rfl | exact absurd rfl h

theorem concrete_setCat (st : ScanState) (f : ℚ) (c : Cat) :
    (setCat st f c).concrete_class = st.concrete_class := by
  cases c <;> rfl

theorem catField_setConc (st : ScanState) (s : String) (c : Cat) :
    catField { st with concrete_class := s } c = catField st c := by
  cases c <;> rfl

theorem chainAux_concrete (st : ScanState) (k : String) (f : ℚ) (l : List Cat) :
    (claimChainAux st k f l).concrete_class = st.concrete_class := by
  induction l with
  | nil => rfl
  | cons c cs ih =>
    simp only [claimChainAux]
    split
    · exact concrete_setCat st f c
    · exact ih

theorem chainAux_not_mem (st : ScanState) (k : String) (f : ℚ) {l : List Cat}
    {c : Cat} (h : c ∉ l) : catField (claimChainAux st k f l) c = catField st c := by
  induction l with
  | nil => rfl
  | cons c' cs ih =>
    have hne : c ≠ c' := fun he => h (he ▸ List.mem_cons_self c' cs)
    have hcs : c ∉ cs := fun hm => h (List.mem_cons_of_mem c' hm)
    show catField (if _ then _ else _) c = _
    split
    · exact catField_setCat_ne st f hne
    · exact ih hcs

theorem chainAux_preserved (st : ScanState) (k : String) (f : ℚ) (l : List Cat)
    {c : Cat} (h : catField st c ≠ 0) :
    catField (claimChainAux st k f l) c = catField st c := by
  induction l with
  | nil => rfl
  | cons c' cs ih =>
    show catField (if _ then _ else _) c = _
    split
    · next hcond =>
      rcases eq_or_ne c c' with rfl | hne
      · exact absurd hcond.1 h
      · exact catField_setCat_ne st f hne
    · exact ih

theorem chainAux_opt (st : ScanState) (k : String) (f : ℚ) (hf : 0 < f)
    (hd : ∀ c c' : Cat, match_keys k (catKeys c) = true →
      match_keys k (catKeys c') = true → c = c') :
    ∀ l : List Cat, l.Nodup → ∀ c ∈ l,
      catFieldOpt (claimChainAux st k f l) c =
        optOr (catFieldOpt st c)
          (if match_keys k (catKeys c) = true then some f else Option.none) := by
  intro l
  induction l with
  | nil => intro _ c hc; exact absurd hc (List.not_mem_nil c)
  | cons c' cs ih =>
    intro hnd c hc
    have hc'cs : c' ∉ cs := (List.nodup_cons.mp hnd).1
    have hcsnd : cs.Nodup := (List.nodup_cons.mp hnd).2
    show catFieldOpt (if _ then _ else _) c = _
    split
    · next hcond =>
      rcases eq_or_ne c c' with rfl | hne
      · rw [catFieldOpt, catField_setCat_self, if_neg (ne_of_gt hf),
          catFieldOpt, if_pos hcond.1, if_pos hcond.2]
        rfl
      · have hnm : match_keys k (catKeys c) ≠ true := fun hm =>
          hne (hd c c' hm hcond.2)
        rw [catFieldOpt, catField_setCat_ne st f hne, if_neg hnm, ← catFieldOpt,
          optOr_none_right]
    · next hcond =>
      rcases eq_or_ne c c' with rfl | hne
      · have hfe : catField (claimChainAux st k f cs) c = catField st c :=
          chainAux_not_mem st k f hc'cs
        rw [catFieldOpt, hfe, ← catFieldOpt]
        by_cases hz : catField st c = 0
        · have hnm : match_keys k (catKeys c) ≠ true := fun hm => hcond ⟨hz, hm⟩
          rw [if_neg hnm, optOr_none_right]
        · rw [catFieldOpt, if_neg hz]
          rfl
      · have hcs : c ∈ cs := (List.mem_cons.mp hc).resolve_left hne
        exact ih hcsnd c hcs

/-- A step on a string-valued or `None`-valued entry (anything `as_float`
rejects) can change only `concrete_class`, never a numeric accumulator. -/
theorem scanStep_concrete_only (st : ScanState) (k : String) (v : PValue)
    (c : Cat) (hn : as_float v = Option.none) :
    catField (scanStep st (k, v)) c = catField st c := by
  simp only [scanStep, hn]
  split
  · rfl
  · split
    · exact catField_setConc st _ c
    · rfl

theorem scanStep_opt (st : ScanState) (k : String) (v : PValue)
    (hd : ∀ c c' : Cat, match_keys k (catKeys c) = true →
      match_keys k (catKeys c') = true → c = c') (c : Cat) :
    catFieldOpt (scanStep st (k, v)) c =
      optOr (catFieldOpt st c) (entryMatch? (k, v) c) := by
  have hmain : ∀ fv : ℚ, as_float v = some fv → isStr v = false →
      catFieldOpt (scanStep st (k, v)) c =
        optOr (catFieldOpt st c) (entryMatch? (k, v) c) := by
    intro fv hfv hstr
    simp only [scanStep, entryMatch?, entryNum?, hfv, hstr, Bool.false_eq_true,
      false_and, and_false, if_false]
    have hnn : v ≠ PValue.null := by
      intro h; rw [h] at hfv; exact Option.noConfusion hfv
    rw [if_neg hnn]
    by_cases hpos : 0 < fv
    · rw [if_pos hpos, if_pos hpos, claimChain]
      exact chainAux_opt st k fv hpos hd catList catList_nodup c (mem_catList c)
    · rw [if_neg hpos, if_neg hpos, optOr_none_right]
  cases v with
  | null =>
    simp [scanStep, entryMatch?, entryNum?, as_float, optOr_none_right]
  | int n => exact hmain _ rfl rfl
  | float q => exact hmain _ rfl rfl
  | bool b => exact hmain _ rfl rfl
  | str s =>
    have hfv : as_float (PValue.str s) = Option.none := rfl
    simp only [scanStep, entryMatch?, entryNum?, hfv]
    rw [if_neg (fun h => PValue.noConfusion h), optOr_none_right]
    split
    · rw [catFieldOpt, catField_setConc, ← catFieldOpt]
    · rfl

/-- Decomposition of the numeric effect of one scan step: the numeric
accumulators change exactly as the claim chain dictates, and only for a
positive numeric value. -/
theorem scanStep_catField (st : ScanState) (k : String) (v : PValue) (c : Cat) :
    catField (scanStep st (k, v)) c =
      match as_float v with
      | some fv => if 0 < fv then catField (claimChain st k fv) c else catField st c
      | Option.none => catField st c := by
  cases v with
  | null => rfl
  | int n =>
    simp only [scanStep, as_float, isStr, Bool.false_eq_true, false_and,
      and_false, if_false]
    rw [if_neg (fun h => PValue.noConfusion h)]
    split <;> rfl
  | float q =>
    simp only [scanStep, as_float, isStr, Bool.false_eq_true, false_and,
      and_false, if_false]
    rw [if_neg (fun h => PValue.noConfusion h)]
    split <;> rfl
  | bool b =>
    simp only [scanStep, as_float, isStr, Bool.false_eq_true, false_and,
      and_false, if_false]
    rw [if_neg (fun h => PValue.noConfusion h)]
    split <;> rfl
  | str s =>
    simp only [scanStep, as_float]
    rw [if_neg (fun h => PValue.noConfusion h)]
    split
    · exact catField_setConc st _ c
    · rfl

/-- Decomposition of the `concrete_class` effect of one scan step: the
line-164 conditional, with the numeric branch never touching it. -/
theorem scanStep_concrete (st : ScanState) (k : String) (v : PValue) :
    (scanStep st (k, v)).concrete_class =
      if st.concrete_class = "" ∧ isStr v = true ∧
          match_keys k CONCRETE_KEYS = true then strVal v
      else st.concrete_class := by
  cases v with
  | null =>
    simp only [scanStep, isStr, Bool.false_eq_true, false_and, and_false,
      if_false]
    rw [if_pos trivial]
  | str s =>
    simp only [scanStep, as_float]
    rw [if_neg (fun h => PValue.noConfusion h)]
    split <;> rfl
  | int n =>
    simp only [scanStep, as_float, isStr, Bool.false_eq_true, false_and,
      and_false, if_false]
    rw [if_neg (fun h => PValue.noConfusion h)]
    repeat' split
    all_goals first | rw [claimChain, chainAux_concrete] | rfl
  | float q =>
    simp only [scanStep, as_float, isStr, Bool.false_eq_true, false_and,
      and_false, if_false]
    rw [if_neg (fun h => PValue.noConfusion h)]
    repeat' split
    all_goals first | rw [claimChain, chainAux_concrete] | rfl
  | bool b =>
    simp only [scanStep, as_float, isStr, Bool.false_eq_true, false_and,
      and_false, if_false]
    rw [if_neg (fun h => PValue.noConfusion h)]
    repeat' split
    all_goals first | rw [claimChain, chainAux_concrete] | rfl

theorem scanStep_preserves (st : ScanState) (kv : String × PValue) (c : Cat)
    (h : catField st c ≠ 0) : catField (scanStep st kv) c = catField st c := by
  have hkv : kv = (kv.1, kv.2) := rfl
  rw [hkv, scanStep_catField]
  rcases hfv : as_float kv.2 with _ | fv
  · rfl
  · show (if _ then _ else _) = _
    split
    · exact chainAux_preserved st kv.1 fv catList h
    · rfl

theorem foldl_preserves (l : List (String × PValue)) (st : ScanState) (c : Cat)
    (h : catField st c ≠ 0) : catField (l.foldl scanStep st) c = catField st c := by
  induction l generalizing st with
  | nil => rfl
  | cons kv rest ih =>
    rw [List.foldl_cons]
    have h1 : catField (scanStep st kv) c = catField st c :=
      scanStep_preserves st kv c h
    rw [ih (scanStep st kv) (by rw [h1]; exact h), h1]

theorem foldl_scanStep_opt (l : List (String × PValue))
    (hd : ∀ kv ∈ l, EntryDisj kv) (st : ScanState) (c : Cat) :
    catFieldOpt (l.foldl scanStep st) c =
      optOr (catFieldOpt st c) (firstCat? l c) := by
  induction l generalizing st with
  | nil => rw [List.foldl_nil, firstCat?, optOr_none_right]
  | cons kv rest ih =>
    rw [List.foldl_cons, firstCat?]
    have hdk := hd kv (List.mem_cons_self kv rest)
    have h2 := scanStep_opt st kv.1 kv.2
      (fun c c' a b => hdk c (mem_catList c) c' (mem_catList c') a b) c
    rw [ih (fun kv' h => hd kv' (List.mem_cons_of_mem kv h)) (scanStep st kv), h2,
      optOr_assoc]

theorem concOpt_of_concrete {st st' : ScanState}
    (h : st.concrete_class = st'.concrete_class) : concOpt st = concOpt st' := by
  rw [concOpt, h, ← concOpt]

theorem scanStep_conc (st : ScanState) (kv : String × PValue) :
    concOpt (scanStep st kv) = optOr (concOpt st) (concMatch? kv) := by
  obtain ⟨k, v⟩ := kv
  by_cases hstr : isStr v = true <;>
    by_cases hm : match_keys k CONCRETE_KEYS = true <;>
      by_cases hc : st.concrete_class = "" <;>
        by_cases hs : strVal v = "" <;>
          simp [concOpt, concMatch?, optOr, scanStep_concrete, hstr, hm, hc, hs]

theorem foldl_scanStep_conc (l : List (String × PValue)) (st : ScanState) :
    concOpt (l.foldl scanStep st) = optOr (concOpt st) (firstConc? l) := by
  induction l generalizing st with
  | nil => rw [List.foldl_nil, firstConc?, optOr_none_right]
  | cons kv rest ih =>
    rw [List.foldl_cons, firstConc?, ih (scanStep st kv), scanStep_conc,
      optOr_assoc]

/-! ## String values never influence the numeric accumulators (claim C3) -/

theorem as_float_of_isStr {v : PValue} (h : isStr v = true) :
    as_float v = Option.none := by
  cases v <;> first | rfl | simp [isStr] at h

theorem chainAux_congr {st st' : ScanState}
    (h : ∀ c, catField st c = catField st' c) (k : String) (f : ℚ) :
    ∀ l : List Cat, ∀ c, catField (claimChainAux st k f l) c =
      catField (claimChainAux st' k f l) c := by
  intro l
  induction l with
  | nil => exact h
  | cons c' cs ih =>
    intro c
    simp only [claimChainAux]
    by_cases hcond : catField st c' = 0 ∧ match_keys k (catKeys c') = true
    · rw [if_pos hcond, if_pos (by rw [← h c']; exact hcond)]
      rcases eq_or_ne c c' with rfl | hne
      · rw [catField_setCat_self, catField_setCat_self]
      · rw [catField_setCat_ne st f hne, catField_setCat_ne st' f hne]
        exact h c
    · rw [if_neg hcond, if_neg (fun hc => hcond (by rw [h c']; exact hc))]
      exact ih c

theorem scanStep_congr {st st' : ScanState}
    (h : ∀ c, catField st c = catField st' c) (kv : String × PValue) (c : Cat) :
    catField (scanStep st kv) c = catField (scanStep st' kv) c := by
  obtain ⟨k, v⟩ := kv
  rcases hfv : as_float v with _ | fv <;>
    simp only [scanStep_catField, hfv]
  · exact h c
  · split
    · rw [claimChain, claimChain]
      exact chainAux_congr h k fv catList c
    · exact h c

theorem flatten_map_filter {α β : Type} (g : β → List α) (p : α → Bool)
    (l : List β) :
    (l.map fun b => (g b).filter p).flatten = ((l.map g).flatten).filter p := by
  induction l with
  | nil => rfl
  | cons b bs ih => simp [List.filter_append, ih]

theorem allEntries_dropStr (ps qs : PSets) :
    allEntries (dropStrEntries ps) (dropStrEntries qs) =
      (allEntries ps qs).filter fun kv => !isStr kv.2 := by
  unfold allEntries dropStrEntries
  rw [← List.map_append, List.map_map]
  exact flatten_map_filter Prod.snd (fun kv => !isStr kv.2) (ps ++ qs)

theorem foldl_dropStr (l : List (String × PValue)) :
    ∀ st st', (∀ c, catField st c = catField st' c) → ∀ c,
      catField (l.foldl scanStep st) c =
        catField ((l.filter fun kv => !isStr kv.2).foldl scanStep st') c := by
  induction l with
  | nil => intro st st' h c; exact h c
  | cons kv rest ih =>
    intro st st' h c
    by_cases hstr : isStr kv.2 = true
    · have hfb : (!isStr kv.2) = false := by rw [hstr]; rfl
      simp only [List.foldl_cons, List.filter_cons, hfb, Bool.false_eq_true,
        if_false]
      refine ih (scanStep st kv) st' (fun c' => ?_) c
      have hs2 : catField (scanStep st kv) c' = catField st c' := by
        have hkv : kv = (kv.1, kv.2) := rfl
        rw [hkv]
        exact scanStep_concrete_only st kv.1 kv.2 c' (as_float_of_isStr hstr)
      rw [hs2]
      exact h c'
    · have hfb : (!isStr kv.2) = true := by
        cases hb : isStr kv.2
        · rfl
        · exact absurd hb hstr
      simp only [List.foldl_cons, List.filter_cons, hfb, if_true]
      exact ih (scanStep st kv) (scanStep st' kv)
        (fun c' => scanStep_congr h kv c') c

/-! ## Lemmas about `build_storey_map` (claims C2, C7) -/

theorem updMap_self (m : Nat → Option String) (k : Nat) (v : String) :
    updMap m k v k = some v := by
  simp [updMap]

theorem updMap_ne (m : Nat → Option String) (k : Nat) (v : String) {x : Nat}
    (h : x ≠ k) : updMap m k v x = m x := by
  simp [updMap, h]

theorem foldl_upd_not_mem (elems : List Nat) (v : String)
    (m : Nat → Option String) {e : Nat} (h : e ∉ elems) :
    (elems.foldl (fun m' x => updMap m' x v) m) e = m e := by
  induction elems generalizing m with
  | nil => rfl
  | cons a as ih =>
    have hne : e ≠ a := fun he => h (he ▸ List.mem_cons_self a as)
    have has : e ∉ as := fun hm => h (List.mem_cons_of_mem a hm)
    rw [List.foldl_cons, ih (updMap m a v) has, updMap_ne m a v hne]

theorem foldl_upd_mem (elems : List Nat) (v : String)
    (m : Nat → Option String) {e : Nat} (h : e ∈ elems) :
    (elems.foldl (fun m' x => updMap m' x v) m) e = some v := by
  induction elems generalizing m with
  | nil => exact absurd h (List.not_mem_nil e)
  | cons a as ih =>
    rw [List.foldl_cons]
    by_cases has : e ∈ as
    · exact ih (updMap m a v) has
    · have hea : e = a := ((List.mem_cons.mp h).resolve_right has)
      rw [foldl_upd_not_mem as v (updMap m a v) has, hea, updMap_self]

theorem storeyLoop_append (l₁ l₂ : List ContainRel)
    (h : ∀ r ∈ l₁, relOk r = true) (m : Nat → Option String) :
    storeyLoop (l₁ ++ l₂) m = storeyLoop l₂ (storeyLoop l₁ m) := by
  induction l₁ generalizing m with
  | nil => rfl
  | cons r rs ih =>
    have hrs : ∀ r' ∈ rs, relOk r' = true := fun r' hm =>
      h r' (List.mem_cons_of_mem r hm)
    rcases hs : r.relating_structure with _ | s
    · rw [List.cons_append]
      show storeyLoop (r :: (rs ++ l₂)) m = _
      simp only [storeyLoop, hs]
      exact ih hrs m
    · rcases hr : r.related_elements with _ | elems
      · have : relOk r = false := by simp [relOk, hs, hr]
        rw [h r (List.mem_cons_self r rs)] at this
        exact Bool.noConfusion this
      · rw [List.cons_append]
        show storeyLoop (r :: (rs ++ l₂)) m = _
        simp only [storeyLoop, hs, hr]
        exact ih hrs _

theorem storeyLoop_untouched (rels : List ContainRel) (e : Nat)
    (h : ∀ r ∈ rels, ∀ l, r.related_elements = some l → e ∉ l) :
    ∀ m, storeyLoop rels m e = m e := by
  induction rels with
  | nil => intro m; rfl
  | cons r rs ih =>
    intro m
    have hrs : ∀ r' ∈ rs, ∀ l, r'.related_elements = some l → e ∉ l :=
      fun r' hm => h r' (List.mem_cons_of_mem r hm)
    rcases hs : r.relating_structure with _ | s
    · simp only [storeyLoop, hs]
      exact ih hrs m
    · rcases hr : r.related_elements with _ | elems
      · simp only [storeyLoop, hs, hr]
      · simp only [storeyLoop, hs, hr]
        rw [ih hrs _, foldl_upd_not_mem elems _ m
          (h r (List.mem_cons_self r rs) elems hr)]

theorem storeyLoop_takeWhile (rels : List ContainRel) :
    ∀ m e, storeyLoop rels m e = storeyLoop (rels.takeWhile relOk) m e := by
  induction rels with
  | nil => intro m e; rfl
  | cons r rs ih =>
    intro m e
    by_cases hok : relOk r = true
    · rw [List.takeWhile_cons, if_pos hok]
      rcases hs : r.relating_structure with _ | s
      · simp only [storeyLoop, hs]
        exact ih m e
      · rcases hr : r.related_elements with _ | elems
        · have : relOk r = false := by simp [relOk, hs, hr]
          rw [hok] at this
          exact Bool.noConfusion this
        · simp only [storeyLoop, hs, hr]
          exact ih _ e
    · have hok' : relOk r = false := by
        cases hb : relOk r
        · rfl
        · exact absurd hb hok
      rw [List.takeWhile_cons, if_neg hok]
      rcases hs : r.relating_structure with _ | s
      · have : relOk r = true := by simp [relOk, hs]
        rw [hok'] at this
        exact Bool.noConfusion this
      · rcases hr : r.related_elements with _ | elems
        · simp only [storeyLoop, hs, hr]
        · have : relOk r = true := by simp [relOk, hs, hr]
          rw [hok'] at this
          exact Bool.noConfusion this

/-! ## Lemmas about `build_spatial_tree` (claims C5, C6) -/

theorem process_skip (g : Graph) (fuel eid : Nat) (parentId : Option Nat)
    (acc : List SpatialNode) (e : SpatialEntity)
    (hl : lookupEntity g eid = some e) (hns : e.ifc_type ∉ SPATIAL_TYPES) :
    process_spatial g fuel eid parentId acc = acc := by
  cases fuel with
  | zero => rfl
  | succ fuel =>
    simp only [process_spatial, hl]
    rw [if_neg hns]

theorem process_appends (g : Graph) : ∀ fuel eid parentId acc, ∃ ext,
    process_spatial g fuel eid parentId acc = acc ++ ext := by
  intro fuel
  induction fuel with
  | zero => intro eid p acc; exact ⟨[], (List.append_nil _).symm⟩
  | succ fuel ih =>
    intro eid p acc
    rcases hl : lookupEntity g eid with _ | e
    · exact ⟨[], by simp only [process_spatial, hl]; rw [List.append_nil]⟩
    · by_cases hsp : e.ifc_type ∈ SPATIAL_TYPES
      · simp only [process_spatial, hl]
        rw [if_pos hsp]
        have inner : ∀ (cs : List Nat) (a : List SpatialNode), ∃ ext,
            cs.foldl (fun a' c => process_spatial g fuel c (some eid) a') a =
              a ++ ext := by
          intro cs
          induction cs with
          | nil => intro a; exact ⟨[], (List.append_nil _).symm⟩
          | cons c cs' ihc =>
            intro a
            obtain ⟨e1, he1⟩ := ih c (some eid) a
            obtain ⟨e2, he2⟩ := ihc (process_spatial g fuel c (some eid) a)
            exact ⟨e1 ++ e2, by rw [List.foldl_cons, he2, he1, List.append_assoc]⟩
        obtain ⟨ext, hext⟩ := inner e.childIds (acc ++ [mkSpatialNode eid e p])
        exact ⟨mkSpatialNode eid e p :: ext, by rw [hext, List.append_assoc]; rfl⟩
      · refine ⟨[], ?_⟩
        simp only [process_spatial, hl]
        rw [if_neg hsp, List.append_nil]

theorem idsOf_append (l₁ l₂ : List SpatialNode) :
    idsOf (l₁ ++ l₂) = idsOf l₁ ++ idsOf l₂ := by
  simp [idsOf]

theorem parentsSeen_append (l₁ : List SpatialNode) : ∀ s l₂,
    ParentsSeen s (l₁ ++ l₂) ↔
      ParentsSeen s l₁ ∧ ParentsSeen (s ++ idsOf l₁) l₂ := by
  induction l₁ with
  | nil =>
    intro s l₂
    simp [ParentsSeen, idsOf]
  | cons n l₁' ih =>
    intro s l₂
    show ((∀ p, n.parent_express_id = some p → p ∈ s) ∧
        ParentsSeen (s ++ [n.express_id]) (l₁' ++ l₂)) ↔ _
    rw [ih (s ++ [n.express_id]) l₂, List.append_assoc]
    exact (and_assoc).symm

theorem process_parentsSeen (g : Graph) : ∀ fuel eid parentId acc,
    ParentsSeen [] acc → (∀ p, parentId = some p → p ∈ idsOf acc) →
    ParentsSeen [] (process_spatial g fuel eid parentId acc) := by
  intro fuel
  induction fuel with
  | zero => intro eid p acc h _; exact h
  | succ fuel ih =>
    intro eid parentId acc hps hpar
    rcases hl : lookupEntity g eid with _ | e
    · simp only [process_spatial, hl]; exact hps
    · by_cases hsp : e.ifc_type ∈ SPATIAL_TYPES
      · simp only [process_spatial, hl]
        rw [if_pos hsp]
        have hacc' : ParentsSeen [] (acc ++ [mkSpatialNode eid e parentId]) := by
          rw [parentsSeen_append]
          exact ⟨hps, fun p hp => by
            rw [List.nil_append]
            exact hpar p hp, trivial⟩
        have heid : eid ∈ idsOf (acc ++ [mkSpatialNode eid e parentId]) := by
          rw [idsOf_append]
          exact List.mem_append_right _ (List.mem_singleton.mpr rfl)
        have inner : ∀ (cs : List Nat) (a : List SpatialNode),
            ParentsSeen [] a → eid ∈ idsOf a →
            ParentsSeen []
              (cs.foldl (fun a' c => process_spatial g fuel c (some eid) a') a) := by
          intro cs
          induction cs with
          | nil => intro a ha _; exact ha
          | cons c cs' ihc =>
            intro a ha heid'
            rw [List.foldl_cons]
            have ha' : ParentsSeen [] (process_spatial g fuel c (some eid) a) :=
              ih c (some eid) a ha fun p hp => by
                cases hp
                exact heid'
            obtain ⟨ext, hext⟩ := process_appends g fuel c (some eid) a
            have heid'' : eid ∈ idsOf (process_spatial g fuel c (some eid) a) := by
              rw [hext, idsOf_append]
              exact List.mem_append_left _ heid'
            exact ihc _ ha' heid''
        exact inner e.childIds _ hacc' heid
      · simp only [process_spatial, hl]
        rw [if_neg hsp]
        exact hps

theorem process_nodeOK (g : Graph) : ∀ fuel eid parentId acc,
    (∀ p, parentId = some p → decompEdge g p eid) →
    ∀ n ∈ process_spatial g fuel eid parentId acc, n ∈ acc ∨ NodeOK g n := by
  intro fuel
  induction fuel with
  | zero => intro eid p acc _ n hn; exact Or.inl hn
  | succ fuel ih =>
    intro eid parentId acc hpar
    rcases hl : lookupEntity g eid with _ | e
    · simp only [process_spatial, hl]
      exact fun n hn => Or.inl hn
    · by_cases hsp : e.ifc_type ∈ SPATIAL_TYPES
      · simp only [process_spatial, hl]
        rw [if_pos hsp]
        have hnode : NodeOK g (mkSpatialNode eid e parentId) :=
          ⟨e, hl, hsp, rfl, rfl, fun p hp => hpar p hp⟩
        have inner : ∀ (cs : List Nat) (a : List SpatialNode),
            (∀ c ∈ cs, c ∈ e.childIds) →
            (∀ n ∈ a, n ∈ acc ∨ NodeOK g n) →
            ∀ n ∈ cs.foldl (fun a' c => process_spatial g fuel c (some eid) a') a,
              n ∈ acc ∨ NodeOK g n := by
          intro cs
          induction cs with
          | nil => intro a _ ha n hn; exact ha n hn
          | cons c cs' ihc =>
            intro a hcs ha n hn
            rw [List.foldl_cons] at hn
            refine ihc _ (fun c' hc' => hcs c' (List.mem_cons_of_mem c hc'))
              (fun n' hn' => ?_) n hn
            rcases ih c (some eid) a (fun p hp => by
                cases hp
                exact ⟨e, hl, hcs c (List.mem_cons_self c cs')⟩) n' hn' with h | h
            · exact ha n' h
            · exact Or.inr h
        intro n hn
        refine inner e.childIds _ (fun c hc => hc) (fun n' hn' => ?_) n hn
        rcases List.mem_append.mp hn' with h | h
        · exact Or.inl h
        · rw [List.mem_singleton.mp h]
          exact Or.inr hnode
      · simp only [process_spatial, hl]
        rw [if_neg hsp]
        exact fun n hn => Or.inl hn

theorem build_parentsSeen (g : Graph) (fuel : Nat) :
    ParentsSeen [] (build_spatial_tree g fuel) := by
  unfold build_spatial_tree
  have h : ∀ (ps : List Nat) (acc : List SpatialNode), ParentsSeen [] acc →
      ParentsSeen []
        (ps.foldl (fun a p => process_spatial g fuel p Option.none a) acc) := by
    intro ps
    induction ps with
    | nil => intro acc h; exact h
    | cons p ps' ih =>
      intro acc hacc
      rw [List.foldl_cons]
      exact ih _ (process_parentsSeen g fuel p Option.none acc hacc
        fun _ hp => Option.noConfusion hp)
  exact h g.projects [] trivial

theorem build_nodeOK (g : Graph) (fuel : Nat) :
    ∀ n ∈ build_spatial_tree g fuel, NodeOK g n := by
  unfold build_spatial_tree
  have h : ∀ (ps : List Nat) (acc : List SpatialNode),
      (∀ n ∈ acc, NodeOK g n) →
      ∀ n ∈ ps.foldl (fun a p => process_spatial g fuel p Option.none a) acc,
        NodeOK g n := by
    intro ps
    induction ps with
    | nil => intro acc h; exact h
    | cons p ps' ih =>
      intro acc hacc n hn
      rw [List.foldl_cons] at hn
      refine ih _ (fun n' hn' => ?_) n hn
      rcases process_nodeOK g fuel p Option.none acc
        (fun _ hp => Option.noConfusion hp) n' hn' with h | h
      · exact hacc n' h
      · exact h
  exact h g.projects [] (fun n hn => absurd hn (List.not_mem_nil n))

theorem parentsSeen_split : ∀ (l₁ : List SpatialNode) {s : List Nat}
    {l : List SpatialNode}, ParentsSeen s l →
    ∀ (n : SpatialNode) (l₂ : List SpatialNode), l = l₁ ++ n :: l₂ →
    ∀ p, n.parent_express_id = some p → p ∈ s ++ idsOf l₁ := by
  intro l₁
  induction l₁ with
  | nil =>
    intro s l h n l₂ hl p hp
    subst hl
    rw [idsOf, List.map_nil, List.append_nil]
    exact h.1 p hp
  | cons m l₁' ih =>
    intro s l h n l₂ hl p hp
    subst hl
    have h2 : ParentsSeen (s ++ [m.express_id]) (l₁' ++ n :: l₂) := h.2
    have hmem := ih h2 n l₂ rfl p hp
    rw [List.append_assoc] at hmem
    exact hmem

theorem lookupEntity_mem {g : Graph} {i : Nat} {e : SpatialEntity}
    (h : lookupEntity g i = some e) : (i, e) ∈ g.entities := by
  unfold lookupEntity at h
  rcases hf : g.entities.find? (fun pe => pe.1 == i) with _ | pe
  · rw [hf] at h
    exact Option.noConfusion h
  · rw [hf] at h
    have hm := List.mem_of_find?_eq_some hf
    have heq := List.find?_some hf
    have hp1 : pe.1 = i := by
      have : (pe.1 == i) = true := heq
      exact eq_of_beq this
    have he : pe.2 = e := Option.some.inj h
    rw [← hp1, ← he]
    exact hm

theorem transGen_rank {r : Nat → Nat → Prop} {rank : Nat → Nat}
    (hr : ∀ p c, r p c → rank c < rank p) :
    ∀ a b, Relation.TransGen r a b → rank b < rank a := by
  intro a b h
  induction h with
  | single h1 => exact hr _ _ h1
  | tail _ h2 ih => exact lt_trans (hr _ _ h2) ih

theorem optOr_none_left {α : Type} (b : Option α) :
    optOr Option.none b = b := rfl

theorem concrete_of_concOpt {st : ScanState} {o : Option String}
    (h : concOpt st = o) : st.concrete_class = o.getD "" := by
  cases o with
  | none =>
    by_cases hc : st.concrete_class = ""
    · exact hc
    · rw [concOpt, if_neg hc] at h
      exact Option.noConfusion h
  | some v =>
    by_cases hc : st.concrete_class = ""
    · rw [concOpt, if_pos hc] at h
      exact Option.noConfusion h
    · rw [concOpt, if_neg hc] at h
      exact Option.some.inj h

/-! ## The claims -/

/-- C1 (counterexample): the claim reads "each of the seven fields is 0.0
or equals the first entry, in scan order, whose normalized name matches
that category's key-set and whose value is numeric and strictly positive".
With the single property set `{"VolumeArea": 5.0, "Area": 7.0}` the first
entry matching the area key-set is `VolumeArea` with value `5.0` (its
normalized name contains both `volume` and `area`), but the `elif` chain
lets it claim only `volume`, so the assembled `area` is `7.0` — neither
`0` nor the claimed first match `5.0`. -/
theorem claim_c1_counterexample :
    ¬((extractFields [("P", [("VolumeArea", PValue.float 5),
          ("Area", PValue.float 7)])] []).area = 0 ∨
      (extractFields [("P", [("VolumeArea", PValue.float 5),
          ("Area", PValue.float 7)])] []).area =
        (firstCat? (allEntries [("P", [("VolumeArea", PValue.float 5),
          ("Area", PValue.float 7)])] []) Cat.area).getD 0) := by
  decide

/-- C1 (amended): provided no entry name matches two different numeric
key-sets, each of the seven fields is exactly the first strictly-positive
numeric entry in scan order matching that category (`catFieldOpt` is
`none` exactly when the field is its `0.0` default); and, with no
hypothesis at all, once a category is claimed by some prefix of the
entries, later entries never change it. -/
theorem claim_c1 (psets qsets : PSets) :
    ((∀ kv ∈ allEntries psets qsets, EntryDisj kv) →
      ∀ c : Cat, catFieldOpt (extractFields psets qsets) c =
        firstCat? (allEntries psets qsets) c)
    ∧ (∀ l₁ l₂ : List (String × PValue), ∀ c : Cat,
        catField (scanEntries l₁) c ≠ 0 →
          catField (scanEntries (l₁ ++ l₂)) c = catField (scanEntries l₁) c) := by
  constructor
  · intro hd c
    have h := foldl_scanStep_opt (allEntries psets qsets) hd initState c
    rw [extractFields, scanEntries] at *
    rw [h]
    have hinit : catFieldOpt initState c = Option.none := by
      cases c <;> rfl
    rw [hinit, optOr_none_left]
  · intro l₁ l₂ c h
    rw [scanEntries, scanEntries, List.foldl_append]
    exact foldl_preserves l₂ _ c h

/-- C1 (witness): a two-entry property set with disjoint names
(`NetVolume`, `Width`) satisfies the disjointness hypothesis, and the
amended first-match characterization holds there. -/
theorem claim_c1_witness :
    (∀ kv ∈ allEntries [("Qto", [("NetVolume", PValue.float 5),
        ("Width", PValue.float 2)])] [], EntryDisj kv)
    ∧ (∀ c : Cat,
      catFieldOpt (extractFields [("Qto", [("NetVolume", PValue.float 5),
          ("Width", PValue.float 2)])] []) c =
        firstCat? (allEntries [("Qto", [("NetVolume", PValue.float 5),
          ("Width", PValue.float 2)])] []) c)
    ∧ catField (scanEntries [("NetVolume", PValue.float 5)]) Cat.volume ≠ 0
    ∧ catField (scanEntries ([("NetVolume", PValue.float 5)] ++
        [("GrossVolume", PValue.float 9)])) Cat.volume =
      catField (scanEntries [("NetVolume", PValue.float 5)]) Cat.volume := by
  have hd : ∀ kv ∈ allEntries [("Qto", [("NetVolume", PValue.float 5),
      ("Width", PValue.float 2)])] [], EntryDisj kv := by decide
  have hnz : catField (scanEntries [("NetVolume", PValue.float 5)])
      Cat.volume ≠ 0 := by decide
  exact ⟨hd, (claim_c1 [("Qto", [("NetVolume", PValue.float 5),
      ("Width", PValue.float 2)])] []).1 hd, hnz,
    (claim_c1 [] []).2 [("NetVolume", PValue.float 5)]
      [("GrossVolume", PValue.float 9)] Cat.volume hnz⟩

/-- C2 (counterexample): the claim says relations after a failing one are
still processed.  With a first relation that raises while its related
elements are read and a second, healthy relation assigning element `7` to
storey `"Level 2"`, the resulting map has no entry for `7` at all —
although the second relation alone would assign it. -/
theorem claim_c2_counterexample :
    build_storey_map [ContainRel.mk (some (SpatialStruct.mk "Ground" ""))
        Option.none,
      ContainRel.mk (some (SpatialStruct.mk "Level 2" "")) (some [7])] 7 ≠
        some "Level 2"
    ∧ build_storey_map [ContainRel.mk (some (SpatialStruct.mk "Level 2" ""))
        (some [7])] 7 = some "Level 2" := by
  exact ⟨by decide, by decide⟩

/-- C2 (amended): the `try` of `build_storey_map` wraps the whole loop, so
a relation-level failure is caught but aborts the remaining relations: the
resulting map is exactly the map built from the longest prefix of
relations preceding the first failing one (a relation with a falsy
structure is merely skipped, not a failure), and that partial map is still
used. -/
theorem claim_c2 (rels : List ContainRel) (e : Nat) :
    build_storey_map rels e = build_storey_map (rels.takeWhile relOk) e :=
  storeyLoop_takeWhile rels _ e

/-- C3 (counterexample): the claim says a boolean value can never claim a
numeric category.  Python's `bool` is a subclass of `int`, so
`isinstance(True, (int, float))` holds, `float(True) = 1.0 > 0`, and a
property `"NetVolume": True` claims `volume = 1.0` in the assembled
record. -/
theorem claim_c3_counterexample :
    (extract_element_data (ElementInput.mk 3 "gid" "IfcWall" "W" ""
        (some [("P", [("NetVolume", RawValue.bool true)])]) (some []) [] [])
      (build_storey_map [])).volume = 1
    ∧ (1 : ℚ) ≠ 0 := by
  exact ⟨by decide, by decide⟩

/-- C3 (amended): string-valued entries never influence any of the seven
numeric fields (removing them changes no numeric field), and entity
references are stored as strings by `safe_value`, so they cannot claim
either; booleans, however, are treated as numeric (`True` coerces to `1.0`
and does claim a matching category). -/
theorem claim_c3 :
    (∀ psets qsets : PSets, ∀ c : Cat,
      catField (extractFields psets qsets) c =
        catField (extractFields (dropStrEntries psets) (dropStrEntries qsets)) c)
    ∧ (∀ s, safe_value (RawValue.entity s) = PValue.str s)
    ∧ (extractFields [("P", [("NetVolume", PValue.bool true)])] []).volume = 1 := by
  refine ⟨?_, fun s => rfl, by decide⟩
  intro ps qs c
  rw [extractFields, extractFields, scanEntries, scanEntries, allEntries_dropStr]
  exact foldl_dropStr (allEntries ps qs) initState initState (fun _ => rfl) c

/-- C4: the assembled search text equals the specification's assembly —
type tag, name, description, floor name, concrete-class, material names,
classification strings, then per property set its name and `key=value`
segments, with quantity sets contributing nothing (they are not even an
input of `specSearchText`), empty segments dropped, single-space joined,
truncated to 10000 characters — and its length never exceeds 10000. -/
theorem claim_c4 (e : ElementInput) (sm : Nat → Option String) :
    (extract_element_data e sm).search_text =
      specSearchText e.ifc_type e.name e.description
        (extract_element_data e sm).floor_name
        (extract_element_data e sm).concrete_class
        e.materials e.classifications
        (extract_element_data e sm).property_sets
    ∧ (extract_element_data e sm).search_text.length ≤ 10000 := by
  constructor
  · rfl
  · show (List.take 10000 _).length ≤ 10000
    rw [List.length_take]
    exact Nat.min_le_left _ _

/-- C5: assuming the decomposition relations are acyclic (witnessed by a
rank function strictly decreasing along decomposition edges), the emitted
node list is a forest: wherever the output splits as `l₁ ++ n :: l₂`, the
parent id of `n`, when present, is the express id of a node in `l₁`
(i.e. appearing strictly before `n`, hence "at or before"); and no id is
its own ancestor in the transitive parent relation of the output. -/
theorem claim_c5 (g : Graph) (fuel : Nat) (rank : Nat → Nat)
    (hrank : ∀ pe ∈ g.entities, ∀ c ∈ pe.2.childIds, rank c < rank pe.1) :
    (∀ (l₁ : List SpatialNode) (n : SpatialNode) (l₂ : List SpatialNode),
      build_spatial_tree g fuel = l₁ ++ n :: l₂ →
      ∀ p, n.parent_express_id = some p → p ∈ idsOf l₁)
    ∧ ∀ x, ¬ Relation.TransGen (outEdge (build_spatial_tree g fuel)) x x := by
  constructor
  · intro l₁ n l₂ hl p hp
    have h := parentsSeen_split l₁ (build_parentsSeen g fuel) n l₂ hl p hp
    rwa [List.nil_append] at h
  · intro x hx
    have hedge : ∀ p c, outEdge (build_spatial_tree g fuel) p c →
        rank c < rank p := by
      rintro p c ⟨n, hn, hc, hp⟩
      obtain ⟨e, _, _, _, _, hpar⟩ := build_nodeOK g fuel n hn
      obtain ⟨e', hl', hch⟩ := hpar p hp
      have hm := lookupEntity_mem hl'
      have := hrank (p, e') hm n.express_id hch
      rwa [hc] at this
    exact absurd (transGen_rank hedge x x hx) (lt_irrefl _)

/-- C5 (witness): a three-node chain project → site → storey with rank
`10 - id` satisfies the acyclicity hypothesis, and the forest property
holds for its traversal. -/
theorem claim_c5_witness :
    (∀ pe ∈ (Graph.mk
        [(1, SpatialEntity.mk "IfcProject" "Proj" "" PValue.null [] [2]),
         (2, SpatialEntity.mk "IfcSite" "Site" "" PValue.null [] [3]),
         (3, SpatialEntity.mk "IfcBuildingStorey" "L1" "" (PValue.str "3.5")
            [[11, 12]] [])] [1]).entities,
      ∀ c ∈ pe.2.childIds, 10 - c < 10 - pe.1)
    ∧ ((∀ (l₁ : List SpatialNode) (n : SpatialNode) (l₂ : List SpatialNode),
        build_spatial_tree (Graph.mk
          [(1, SpatialEntity.mk "IfcProject" "Proj" "" PValue.null [] [2]),
           (2, SpatialEntity.mk "IfcSite" "Site" "" PValue.null [] [3]),
           (3, SpatialEntity.mk "IfcBuildingStorey" "L1" "" (PValue.str "3.5")
              [[11, 12]] [])] [1]) 9 = l₁ ++ n :: l₂ →
        ∀ p, n.parent_express_id = some p → p ∈ idsOf l₁)
      ∧ ∀ x, ¬ Relation.TransGen (outEdge (build_spatial_tree (Graph.mk
          [(1, SpatialEntity.mk "IfcProject" "Proj" "" PValue.null [] [2]),
           (2, SpatialEntity.mk "IfcSite" "Site" "" PValue.null [] [3]),
           (3, SpatialEntity.mk "IfcBuildingStorey" "L1" "" (PValue.str "3.5")
              [[11, 12]] [])] [1]) 9)) x x) := by
  exact ⟨by decide, claim_c5 _ 9 (fun i => 10 - i) (by decide)⟩

/-- C6: an entity that does not resolve to a recognized spatial-container
type is skipped with its whole subtree (`process_spatial` leaves the
accumulator untouched, so nothing is emitted for it or below it); every
emitted node has a recognized type; each node's elevation equals the
storey-only parse of its entity's elevation attribute (absent — without
aborting — when the attribute is missing or fails to parse); and a node
carrying an elevation is storey-typed. -/
theorem claim_c6 (g : Graph) (fuel : Nat) :
    (∀ (eid : Nat) (e : SpatialEntity) (parentId : Option Nat)
        (acc : List SpatialNode),
      lookupEntity g eid = some e → e.ifc_type ∉ SPATIAL_TYPES →
      process_spatial g fuel eid parentId acc = acc)
    ∧ (∀ n ∈ build_spatial_tree g fuel, n.ifc_type ∈ SPATIAL_TYPES)
    ∧ (∀ n ∈ build_spatial_tree g fuel, ∃ e,
        lookupEntity g n.express_id = some e ∧ n.ifc_type = e.ifc_type ∧
          n.elevation = storeyElevation e)
    ∧ (∀ n ∈ build_spatial_tree g fuel, n.elevation ≠ Option.none →
        n.ifc_type = "IfcBuildingStorey") := by
  refine ⟨fun eid e p acc hl hns => process_skip g fuel eid p acc e hl hns,
    ?_, ?_, ?_⟩
  · intro n hn
    obtain ⟨e, _, hsp, ht, _, _⟩ := build_nodeOK g fuel n hn
    rw [ht]
    exact hsp
  · intro n hn
    obtain ⟨e, hl, _, ht, hel, _⟩ := build_nodeOK g fuel n hn
    exact ⟨e, hl, ht, hel⟩
  · intro n hn hne
    obtain ⟨e, _, _, ht, hel, _⟩ := build_nodeOK g fuel n hn
    rw [ht]
    by_contra hns
    rw [hel, storeyElevation, if_neg hns] at hne
    exact hne rfl

/-- C6 (witness): in a graph whose project decomposes into an `IfcWall`
(with a storey below it) and a storey whose elevation attribute is the
unparsable string `"abc"`, the wall entity is skipped with its subtree,
and every emitted node with an elevation is a storey. -/
theorem claim_c6_witness :
    lookupEntity (Graph.mk
        [(1, SpatialEntity.mk "IfcProject" "Proj" "" PValue.null [] [2, 3]),
         (2, SpatialEntity.mk "IfcWall" "Wall" "" PValue.null [] [4]),
         (3, SpatialEntity.mk "IfcBuildingStorey" "L1" ""
            (PValue.str "abc") [] []),
         (4, SpatialEntity.mk "IfcBuildingStorey" "L2" ""
            (PValue.float 3) [] [])] [1]) 2 =
      some (SpatialEntity.mk "IfcWall" "Wall" "" PValue.null [] [4])
    ∧ (SpatialEntity.mk "IfcWall" "Wall" "" PValue.null [] [4]).ifc_type ∉
        SPATIAL_TYPES
    ∧ process_spatial (Graph.mk
        [(1, SpatialEntity.mk "IfcProject" "Proj" "" PValue.null [] [2, 3]),
         (2, SpatialEntity.mk "IfcWall" "Wall" "" PValue.null [] [4]),
         (3, SpatialEntity.mk "IfcBuildingStorey" "L1" ""
            (PValue.str "abc") [] []),
         (4, SpatialEntity.mk "IfcBuildingStorey" "L2" ""
            (PValue.float 3) [] [])] [1]) 9 2 Option.none [] = []
    ∧ (∀ n ∈ build_spatial_tree (Graph.mk
        [(1, SpatialEntity.mk "IfcProject" "Proj" "" PValue.null [] [2, 3]),
         (2, SpatialEntity.mk "IfcWall" "Wall" "" PValue.null [] [4]),
         (3, SpatialEntity.mk "IfcBuildingStorey" "L1" ""
            (PValue.str "abc") [] []),
         (4, SpatialEntity.mk "IfcBuildingStorey" "L2" ""
            (PValue.float 3) [] [])] [1]) 9, n.elevation ≠ Option.none →
        n.ifc_type = "IfcBuildingStorey")
    ∧ build_spatial_tree (Graph.mk
        [(1, SpatialEntity.mk "IfcProject" "Proj" "" PValue.null [] [2, 3]),
         (2, SpatialEntity.mk "IfcWall" "Wall" "" PValue.null [] [4]),
         (3, SpatialEntity.mk "IfcBuildingStorey" "L1" ""
            (PValue.str "abc") [] []),
         (4, SpatialEntity.mk "IfcBuildingStorey" "L2" ""
            (PValue.float 3) [] [])] [1]) 9 =
      [SpatialNode.mk 1 "IfcProject" "Proj" "" Option.none Option.none 0,
       SpatialNode.mk 3 "IfcBuildingStorey" "L1" "" (some 1) Option.none 0]
    ∧ (SpatialNode.mk 3 "IfcBuildingStorey" "L1" "" (some 1) Option.none
        0).ifc_type ∈ SPATIAL_TYPES := by
  refine ⟨by decide, by decide, ?_, (claim_c6 _ 9).2.2.2, by decide, ?_⟩
  · exact (claim_c6 _ 9).1 2
      (SpatialEntity.mk "IfcWall" "Wall" "" PValue.null [] [4])
      Option.none [] (by decide) (by decide)
  · exact (claim_c6 (Graph.mk
      [(1, SpatialEntity.mk "IfcProject" "Proj" "" PValue.null [] [2, 3]),
       (2, SpatialEntity.mk "IfcWall" "Wall" "" PValue.null [] [4]),
       (3, SpatialEntity.mk "IfcBuildingStorey" "L1" ""
          (PValue.str "abc") [] []),
       (4, SpatialEntity.mk "IfcBuildingStorey" "L2" ""
          (PValue.float 3) [] [])] [1]) 9).2.1
      (SpatialNode.mk 3 "IfcBuildingStorey" "L1" "" (some 1) Option.none 0)
      (by decide)

/-- C7: in `build_storey_map`, when an element is listed in several
containment relations the one processed last wins — appending a healthy
relation naming the element to any list of healthy relations makes its
structure's display name the element's final entry; and an element listed
in no relation has no map entry, so its assembled record carries the empty
floor name. -/
theorem claim_c7 :
    (∀ (rels : List ContainRel) (r : ContainRel) (s : SpatialStruct)
        (elems : List Nat) (e : Nat),
      (∀ r' ∈ rels, relOk r' = true) → r.relating_structure = some s →
      r.related_elements = some elems → e ∈ elems →
      build_storey_map (rels ++ [r]) e = some (displayName s))
    ∧ (∀ (rels : List ContainRel) (inp : ElementInput),
        (∀ r' ∈ rels, ∀ l, r'.related_elements = some l →
          inp.express_id ∉ l) →
        (extract_element_data inp (build_storey_map rels)).floor_name = "") := by
  constructor
  · intro rels r s elems e hok hs hr he
    rw [build_storey_map, storeyLoop_append rels [r] hok]
    show storeyLoop [r] _ e = _
    simp only [storeyLoop, hs, hr]
    exact foldl_upd_mem elems (displayName s) _ he
  · intro rels inp h
    have hm : build_storey_map rels inp.express_id = Option.none :=
      storeyLoop_untouched rels inp.express_id h _
    show (build_storey_map rels inp.express_id).getD "" = ""
    rw [hm]
    rfl

/-- C7 (witness): element `7` named by a relation for `"Level 1"` and then
by a relation for `"Level 2"` ends with floor name `"Level 2"`. -/
theorem claim_c7_witness :
    (∀ r' ∈ [ContainRel.mk (some (SpatialStruct.mk "Level 1" ""))
        (some [7])], relOk r' = true)
    ∧ build_storey_map
        ([ContainRel.mk (some (SpatialStruct.mk "Level 1" "")) (some [7])] ++
          [ContainRel.mk (some (SpatialStruct.mk "Level 2" "")) (some [7])]) 7 =
      some (displayName (SpatialStruct.mk "Level 2" ""))
    ∧ (extract_element_data (ElementInput.mk 8 "gid" "IfcWall" "W" ""
        (some []) (some []) [] []) (build_storey_map [])).floor_name = "" := by
  exact ⟨by decide, claim_c7.1
    [ContainRel.mk (some (SpatialStruct.mk "Level 1" "")) (some [7])]
    (ContainRel.mk (some (SpatialStruct.mk "Level 2" "")) (some [7]))
    (SpatialStruct.mk "Level 2" "") [7] 7 (by decide) rfl rfl (by decide),
    claim_c7.2 [] (ElementInput.mk 8 "gid" "IfcWall" "W" "" (some [])
      (some []) [] []) (by decide)⟩

/-- C8: `normalize_key` is idempotent and identifies the three spellings
of the claim's example; `match_keys` holds exactly when some key of the
key set is a (contiguous) substring of the normalized name. -/
theorem claim_c8 :
    (∀ s : String, normalize_key (normalize_key s) = normalize_key s)
    ∧ normalize_key "Net Volume" = normalize_key "net_volume"
    ∧ normalize_key "net_volume" = normalize_key "NETVOLUME"
    ∧ ∀ (nm : String) (ks : List String),
        match_keys nm ks = true ↔ ∃ k ∈ ks, k.data <:+: (normalize_key nm).data :=
  ⟨normalize_key_idem, by decide, by decide, match_keys_iff⟩

/-- C9 (counterexample): the claim says every key/value entry of the
retrieved mapping appears unchanged in the record.  A retrieved property
set `{"id": 5, "x": 2.0}` is stored without any `"id"` entry: the cleaning
loop drops that key. -/
theorem claim_c9_counterexample :
    ¬ ∃ p ∈ (extract_element_data (ElementInput.mk 3 "gid" "IfcWall" "W" ""
        (some [("P", [("id", RawValue.int 5), ("x", RawValue.float 2)])])
        (some []) [] []) (build_storey_map [])).property_sets,
      p.1 = "P" ∧ ∃ kv ∈ p.2, kv.1 = "id" := by
  decide

/-- C9 (amended): when retrieval succeeds, the record's property/quantity
mappings are the retrieved ones cleaned entry-wise: set names are
preserved in order, every entry not keyed `"id"` is preserved with its
value passed through `safe_value`, and `safe_value` is the identity on
numbers, booleans and strings (only entity references are rewritten, to
their string rendering). -/
theorem claim_c9 (e : ElementInput) (sm : Nat → Option String)
    (rawP rawQ : List (String × List (String × RawValue)))
    (hp : e.rawPsets = some rawP) (hq : e.rawQsets = some rawQ) :
    ((extract_element_data e sm).property_sets =
        rawP.map (fun p => (p.1, cleanProps p.2))
      ∧ (extract_element_data e sm).quantity_sets =
        rawQ.map (fun p => (p.1, cleanProps p.2)))
    ∧ ((extract_element_data e sm).property_sets.map Prod.fst =
        rawP.map Prod.fst
      ∧ (extract_element_data e sm).quantity_sets.map Prod.fst =
        rawQ.map Prod.fst)
    ∧ (∀ p ∈ rawP,
        (p.1, cleanProps p.2) ∈ (extract_element_data e sm).property_sets
        ∧ ∀ kv ∈ p.2, kv.1 ≠ "id" →
            (kv.1, safe_value kv.2) ∈ cleanProps p.2)
    ∧ ((∀ n, safe_value (RawValue.int n) = PValue.int n)
      ∧ (∀ q, safe_value (RawValue.float q) = PValue.float q)
      ∧ (∀ b, safe_value (RawValue.bool b) = PValue.bool b)
      ∧ (∀ s, safe_value (RawValue.str s) = PValue.str s)) := by
  have hps : (extract_element_data e sm).property_sets =
      rawP.map (fun p => (p.1, cleanProps p.2)) := by
    show cleanSets e.rawPsets = _
    rw [hp]
    rfl
  have hqs : (extract_element_data e sm).quantity_sets =
      rawQ.map (fun p => (p.1, cleanProps p.2)) := by
    show cleanSets e.rawQsets = _
    rw [hq]
    rfl
  refine ⟨⟨hps, hqs⟩, ⟨?_, ?_⟩, ?_, fun n => rfl, fun q => rfl, fun b => rfl,
    fun s => rfl⟩
  · rw [hps, List.map_map]
    exact List.map_congr_left fun p _ => rfl
  · rw [hqs, List.map_map]
    exact List.map_congr_left fun p _ => rfl
  · intro p hmem
    constructor
    · rw [hps]
      exact List.mem_map_of_mem _ hmem
    · intro kv hkv hne
      rw [cleanProps]
      exact List.mem_filterMap.mpr ⟨kv, hkv, by rw [if_neg hne]⟩

/-- C9 (witness): the amended cleaning description instantiated on the
concrete element of the counterexample. -/
theorem claim_c9_witness :
    (ElementInput.mk 3 "gid" "IfcWall" "W" ""
        (some [("P", [("id", RawValue.int 5), ("x", RawValue.float 2)])])
        (some []) [] []).rawPsets =
      some [("P", [("id", RawValue.int 5), ("x", RawValue.float 2)])]
    ∧ (extract_element_data (ElementInput.mk 3 "gid" "IfcWall" "W" ""
        (some [("P", [("id", RawValue.int 5), ("x", RawValue.float 2)])])
        (some []) [] []) (build_storey_map [])).property_sets =
      [("P", [("id", RawValue.int 5), ("x", RawValue.float 2)])].map
        (fun p => (p.1, cleanProps p.2)) := by
  exact ⟨rfl, (claim_c9 (ElementInput.mk 3 "gid" "IfcWall" "W" ""
    (some [("P", [("id", RawValue.int 5), ("x", RawValue.float 2)])])
    (some []) [] []) (build_storey_map [])
    [("P", [("id", RawValue.int 5), ("x", RawValue.float 2)])] [] rfl rfl).1.1⟩

/-- C10: the record's `concrete_class` is exactly the first entry, in the
scan order over the record's own stored property and quantity sets, whose
value is a non-empty string and whose name matches the concrete key-set —
empty-string matches assign nothing observable and leave the field
claimable, and the characterization never consults the numeric
accumulators, so string claims are independent of numeric claims. -/
theorem claim_c10 (e : ElementInput) (sm : Nat → Option String) :
    (extract_element_data e sm).concrete_class =
      (firstConc? (allEntries (extract_element_data e sm).property_sets
        (extract_element_data e sm).quantity_sets)).getD "" := by
  show (extractFields (cleanSets e.rawPsets) (cleanSets e.rawQsets)).concrete_class =
    (firstConc? (allEntries (cleanSets e.rawPsets) (cleanSets e.rawQsets))).getD ""
  have h := foldl_scanStep_conc
    (allEntries (cleanSets e.rawPsets) (cleanSets e.rawQsets)) initState
  rw [show concOpt initState = Option.none from rfl, optOr_none_left] at h
  exact concrete_of_concOpt h

end ParseIfc


